import Mathlib

set_option maxRecDepth 4000

/-
Shallow embedding of the workout-timer subsystem of
`src/workout-timer/workout-timer.js`: the volume parser (`parseVolume`), the
line parser (`parseLine`), the step expander (`expandLineToSteps`), the
workout compiler (`parseWorkout`), and the synchronous state transitions of
the session state machine (`startWorkout`, `togglePause`,
`skipToNextExercise`, timer-tick announcement logic).

Machine integers are modelled as `Nat` (all quantities in the source are
non-negative counts, millisecond timestamps or second durations), strings as
`String`/`List Char`, and thrown JavaScript exceptions as `Except` errors.
The JavaScript regular expressions of `parseVolume` are unrolled into
deterministic character-list matchers; each optional regex group is followed
in the pattern by a requirement (a digit, the end of input, a specific
letter) that a skipped character could never satisfy, so the greedy
left-to-right reading below coincides with the backtracking semantics.
-/

-- ### Character utilities modelling the JavaScript string primitives

/-- White space as JavaScript sees it: the character set matched by the
regex class `\s` and removed by `String.prototype.trim` (ECMAScript
WhiteSpace plus LineTerminator code points). -/
def jsIsSpace (c : Char) : Bool :=
  c.toNat = 9 || c.toNat = 10 || c.toNat = 11 || c.toNat = 12 || c.toNat = 13 ||
  c.toNat = 32 || c.toNat = 160 || c.toNat = 5760 ||
  (8192 ≤ c.toNat && c.toNat ≤ 8202) ||
  c.toNat = 8232 || c.toNat = 8233 || c.toNat = 8239 || c.toNat = 8287 ||
  c.toNat = 12288 || c.toNat = 65279

/-- Digits as matched by the regex class `\d`. -/
def jsIsDigit (c : Char) : Bool :=
  48 ≤ c.toNat && c.toNat ≤ 57

/-- Line terminators, which the regex metacharacter `.` does not match. -/
def jsIsLineTerm (c : Char) : Bool :=
  c.toNat = 10 || c.toNat = 13 || c.toNat = 8232 || c.toNat = 8233

/-- ASCII upper-case letters (used to state the case-sensitivity claim). -/
def isUpperChar (c : Char) : Bool :=
  65 ≤ c.toNat && c.toNat ≤ 90

/-- Model of `String.prototype.trim`. -/
def jsTrim (cs : List Char) : List Char :=
  ((cs.dropWhile jsIsSpace).reverse.dropWhile jsIsSpace).reverse

/-- Numeric value of a digit run, as produced by `parseInt` on it. -/
def digitsVal (ds : List Char) : Nat :=
  ds.foldl (fun acc c => acc * 10 + (c.toNat - 48)) 0

/-- Model of `String.prototype.split` with a single-character separator. -/
def splitOnChar (sep : Char) : List Char → List (List Char)
  | [] => [[]]
  | c :: rest =>
    if c = sep then [] :: splitOnChar sep rest
    else
      match splitOnChar sep rest with
      | [] => [[c]]
      | h :: t => (c :: h) :: t

/-- Model of `line.indexOf("//")`: index of the first occurrence of two
adjacent slashes, if any. -/
def indexOfSlashSlash : List Char → Option Nat
  | '/' :: '/' :: _ => some 0
  | _ :: rest => (indexOfSlashSlash rest).map (· + 1)
  | [] => none

-- ### Configuration constants (workout-timer.js lines 11-16)

def CHANGE_EXERCISE_TRANSITION_S : Nat := 6
def CHANGE_SIDES_TRANSITION_S : Nat := 6
def HALFWAY_ANNOUNCEMENT_MIN_DURATION_S : Nat := 20
def STEP_JUST_STARTED_THRESHOLD_S : Nat := 2

-- ### Volume parser (`parseVolume`)

inductive VolumeUnit
  | seconds
  | reps
deriving DecidableEq

structure Volume where
  value : Nat
  unit : VolumeUnit
deriving DecidableEq

/-- The three `throw new Error(...)` sites of `parseVolume`; each carries the
string interpolated into its message. -/
inductive VolumeErr
  | nestedComma (s : String)
  | mixedUnits (s : String)
  | invalid (s : String)
deriving DecidableEq

/-- The message text of each `parseVolume` error. -/
def volumeErrMessage : VolumeErr → String
  | .nestedComma s => "Invalid nested commas in duration: \"" ++ s ++ "\""
  | .mixedUnits s => "Cannot combine reps with time in: \"" ++ s ++ "\""
  | .invalid s =>
    "Invalid duration or reps: \"" ++ s ++
      "\". Expected formats: \"10\" (reps), \"30s\", \"30 sec\", \"2m\", \"2 min\", \"1m30s\", \"1 minute, 30 seconds\""

/-- The optional regex group `(?:ute)?` (greedy). -/
def uteOpt (cs : List Char) : List Char :=
  if cs.take 3 = [ 'u', 't', 'e'] then cs.drop 3 else cs

/-- The optional regex group `s?` (greedy). -/
def sOpt (cs : List Char) : List Char :=
  if cs.take 1 = [ 's'] then cs.drop 1 else cs

/-- The optional regex group `(?:ond)?` (greedy). -/
def ondOpt (cs : List Char) : List Char :=
  if cs.take 3 = [ 'o', 'n', 'd'] then cs.drop 3 else cs

/-- What remains after the optional group `(?:in(?:ute)?s?)?` that follows
the literal `m` in the duration regexes. -/
def minTail (cs : List Char) : List Char :=
  if cs.take 2 = [ 'i', 'n'] then sOpt (uteOpt (cs.drop 2)) else cs

/-- What remains after the optional group `(?:ec(?:ond)?s?)?` that follows
the literal `s` in the duration regexes. -/
def secTail (cs : List Char) : List Char :=
  if cs.take 2 = [ 'e', 'c'] then sOpt (ondOpt (cs.drop 2)) else cs

/-- `/^\d+$/` together with `parseInt` on the match. -/
def matchAllDigits (cs : List Char) : Option Nat :=
  if cs ≠ [] ∧ cs.all jsIsDigit then some (digitsVal cs) else none

/-- `/^\d+\s*reps?$/` together with `parseInt` on the leading digits. -/
def matchReps (cs : List Char) : Option Nat :=
  let ds := cs.takeWhile jsIsDigit
  let r2 := (cs.dropWhile jsIsDigit).dropWhile jsIsSpace
  if ds ≠ [] ∧ (r2 = [ 'r', 'e', 'p'] ∨ r2 = [ 'r', 'e', 'p', 's']) then
    some (digitsVal ds)
  else none

/-- `/^(\d+)\s*m(?:in(?:ute)?s?)?\s*(\d+)\s*s(?:ec(?:ond)?s?)?$/`, returning
minutes times sixty plus seconds on a match. -/
def matchCombined (cs : List Char) : Option Nat :=
  let ds1 := cs.takeWhile jsIsDigit
  let r := (cs.dropWhile jsIsDigit).dropWhile jsIsSpace
  match r with
  | 'm' :: r1 =>
    let r2 := (minTail r1).dropWhile jsIsSpace
    let ds2 := r2.takeWhile jsIsDigit
    match (r2.dropWhile jsIsDigit).dropWhile jsIsSpace with
    | 's' :: r4 =>
      if ds1 ≠ [] ∧ ds2 ≠ [] ∧ secTail r4 = [] then
        some (digitsVal ds1 * 60 + digitsVal ds2)
      else none
    | _ => none
  | _ => none

/-- `/^(\d+)\s*(s(?:ec(?:ond)?s?)?|m(?:in(?:ute)?s?)?)$/`; the boolean is
true when the unit begins with `m` (minutes). -/
def matchSimple (cs : List Char) : Option (Nat × Bool) :=
  let ds := cs.takeWhile jsIsDigit
  let r := (cs.dropWhile jsIsDigit).dropWhile jsIsSpace
  if ds = [] then none
  else
    match r with
    | 's' :: r1 => if secTail r1 = [] then some (digitsVal ds, false) else none
    | 'm' :: r1 => if minTail r1 = [] then some (digitsVal ds, true) else none
    | _ => none

/-- `parseVolume` on a comma-free fragment. In the source the comma branch
recursively calls `parseVolume` on each fragment of `duration.split(",")`;
those fragments contain no comma, so on them the full function skips its
comma branch and reduces to exactly this definition (the surrounding pattern
order is unchanged; the first three patterns cannot match a string that
contains a comma). -/
def parseVolumeFrag (s : List Char) : Except VolumeErr Volume :=
  let d := jsTrim s
  match matchAllDigits d with
  | some n => .ok ⟨n, .reps⟩
  | none =>
    match matchReps d with
    | some n => .ok ⟨n, .reps⟩
    | none =>
      match matchCombined d with
      | some n => .ok ⟨n, .seconds⟩
      | none =>
        match matchSimple d with
        | some (n, true) => .ok ⟨n * 60, .seconds⟩
        | some (n, false) => .ok ⟨n, .seconds⟩
        | none => .error (.invalid (String.mk d))

/-- The comma-list loop of `parseVolume`: fails on a fragment that still
contains a comma (dead in practice, kept from the source), propagates
fragment errors, rejects non-seconds fragments, and sums the seconds. -/
def sumFragments (orig : List Char) : List (List Char) → Except VolumeErr Nat
  | [] => .ok 0
  | p :: ps =>
    if p.contains ',' then .error (.nestedComma (String.mk orig))
    else
      match parseVolumeFrag p with
      | .error e => .error e
      | .ok v =>
        if v.unit ≠ .seconds then .error (.mixedUnits (String.mk orig))
        else
          match sumFragments orig ps with
          | .error e => .error e
          | .ok total => .ok (v.value + total)

/-- `parseVolume` (workout-timer.js lines 451-499) on a character list. -/
def parseVolumeL (s : List Char) : Except VolumeErr Volume :=
  let d := jsTrim s
  match matchAllDigits d with
  | some n => .ok ⟨n, .reps⟩
  | none =>
    match matchReps d with
    | some n => .ok ⟨n, .reps⟩
    | none =>
      match matchCombined d with
      | some n => .ok ⟨n, .seconds⟩
      | none =>
        if d.contains ',' then
          match sumFragments d ((splitOnChar ',' d).map jsTrim) with
          | .error e => .error e
          | .ok total => .ok ⟨total, .seconds⟩
        else
          match matchSimple d with
          | some (n, true) => .ok ⟨n * 60, .seconds⟩
          | some (n, false) => .ok ⟨n, .seconds⟩
          | none => .error (.invalid (String.mk d))

/-- `parseVolume` on a `String`. -/
def parseVolume (s : String) : Except VolumeErr Volume :=
  parseVolumeL s.data

-- ### Line parser (`parseLine`)

inductive ErrKind
  | lineFormat
  | duration
  | modifier
deriving DecidableEq

/-- The `stepType` tag carried by parse errors. -/
inductive StepKindTag
  | rest
  | exercise
deriving DecidableEq

/-- Result of `parseLine`. The `parts` payload of the source (used only by
the syntax highlighter, which is outside the modelled core) is omitted. -/
inductive ParsedLine
  | empty
  | title (name : String)
  | header (name : String)
  | exercise (name : String) (volume : Volume) (modifier : Option String)
      (notes : Option String)
  | rest (volume : Volume) (notes : Option String)
  | error (msg : String) (kind : ErrKind) (stepType : Option StepKindTag)
deriving DecidableEq

def restRepsMsg : String :=
  "Rest cannot have reps as volume. Expected time format like \"30s\", \"1m\", \"1m30s\", or \"1 minute, 30 seconds\"."

def restModifierMsg : String :=
  "Rest cannot have a modifier (like \"each side\")"

def eachSideChars : List Char :=
  [ 'e', 'a', 'c', 'h', ' ', 's', 'i', 'd', 'e']

/-- The tail of `parseLine` once the 2-3 pipe-separated parts are in hand.
`modifier` is `none` when the line had only two parts (JavaScript
`undefined`); an empty third part is treated exactly as the source treats
the falsy empty string. -/
def parseLinePair (name durationStr : List Char) (modifier : Option (List Char))
    (notes : Option String) : ParsedLine :=
  let isRest := jsTrim (name.map Char.toLower) = [ 'r', 'e', 's', 't']
  match parseVolumeL durationStr with
  | .error e =>
    .error (volumeErrMessage e) .duration (some (if isRest then .rest else .exercise))
  | .ok volume =>
    if isRest then
      if volume.unit = .reps then .error restRepsMsg .duration (some .rest)
      else if modifier.isSome then .error restModifierMsg .modifier (some .rest)
      else .rest volume notes
    else
      match modifier with
      | some m =>
        if m ≠ [] ∧ m ≠ eachSideChars then
          .error ("Invalid modifier: \"" ++ String.mk m ++ "\"") .modifier (some .exercise)
        else
          .exercise (String.mk name) volume
            (if m = [] then none else some (String.mk m)) notes
      | none => .exercise (String.mk name) volume none notes

/-- `parseLine` (workout-timer.js lines 506-617). The hash branch models the
regex `^(#+)\s*(.*)` (note `.` stops at a line terminator) followed by
`.trim()` on the captured name. -/
def parseLine (line : String) (lineIndex : Nat) : ParsedLine :=
  let trimmed := jsTrim line.data
  if trimmed = [] ∨ trimmed.take 2 = [ '/', '/'] then .empty
  else if trimmed.take 1 = [ '#'] then
    let hashes := trimmed.takeWhile (fun c => c = '#')
    let afterHashes := (trimmed.dropWhile (fun c => c = '#')).dropWhile jsIsSpace
    let name := jsTrim (afterHashes.takeWhile (fun c => !jsIsLineTerm c))
    if hashes.length > 2 then
      .error ("Too many # characters. Use # for title, ## for section") .lineFormat none
    else if name.length = 0 then
      .error ("Empty header") .lineFormat none
    else if hashes.length = 1 then
      if lineIndex ≠ 0 then
        .error ("Title (#) must be on the first line. Use ## for sections") .lineFormat none
      else .title (String.mk name)
    else .header (String.mk name)
  else
    let cs := line.data
    let mainPart :=
      match indexOfSlashSlash cs with
      | some i => cs.take i
      | none => cs
    let notes :=
      match indexOfSlashSlash cs with
      | some i => some (String.mk (jsTrim (cs.drop (i + 2))))
      | none => none
    let parts := (splitOnChar '|' mainPart).map jsTrim
    match parts with
    | [name, durationStr] => parseLinePair name durationStr none notes
    | [name, durationStr, modifier] => parseLinePair name durationStr (some modifier) notes
    | _ => .error ("Expected 2-3 parts, got " ++ toString parts.length) .lineFormat none

-- ### Steps and the step expander (`expandLineToSteps`)

inductive Side
  | left
  | right
  | each
deriving DecidableEq

inductive TransKind
  | changeSides
  | changeExercises
deriving DecidableEq

/-- Runtime steps. `sectionName` is the source's `section` field (a Lean
keyword, hence the renaming). -/
inductive Step
  | exercise (name : String) (volume : Volume) (side : Option Side)
      (notes : Option String) (sectionName : Option String)
  | rest (durationSeconds : Nat) (notes : Option String) (sectionName : Option String)
  | transition (kind : TransKind) (durationSeconds : Nat) (sectionName : Option String)
deriving DecidableEq

/-- `expandLineToSteps` (workout-timer.js lines 626-689); the `throw` on a
parse error becomes an `Except.error` carrying the parse error message. -/
def expandLineToSteps (line : String) (lineIndex : Nat) (sectionName : Option String) :
    Except String (List Step) :=
  match parseLine line lineIndex with
  | .empty => .ok []
  | .title _ => .ok []
  | .header _ => .ok []
  | .error msg _ _ => .error msg
  | .rest volume notes => .ok [.rest volume.value notes sectionName]
  | .exercise name volume modifier notes =>
    if modifier = some (String.mk eachSideChars) then
      if volume.unit = .reps then
        .ok [.exercise name volume (some .each) notes sectionName]
      else
        .ok [.transition .changeExercises CHANGE_EXERCISE_TRANSITION_S sectionName,
             .exercise name volume (some .left) notes sectionName,
             .transition .changeSides CHANGE_SIDES_TRANSITION_S sectionName,
             .exercise name volume (some .right) notes sectionName]
    else if volume.unit = .reps then
      .ok [.exercise name volume none notes sectionName]
    else
      .ok [.transition .changeExercises CHANGE_EXERCISE_TRANSITION_S sectionName,
           .exercise name volume none notes sectionName]

-- ### Workout compiler (`parseWorkout`)

structure WorkoutData where
  title : Option String
  steps : List Step
deriving DecidableEq

/-- The mutable locals of the `parseWorkout` scan. -/
structure ParseAcc where
  steps : List Step
  errors : List String
  title : Option String
  currentSection : Option String
deriving DecidableEq

/-- One iteration of the `lines.forEach` body of `parseWorkout`. -/
def parseWorkoutLine (acc : ParseAcc) (idx : Nat) (line : String) : ParseAcc :=
  match parseLine line idx with
  | .title n => { acc with title := some n }
  | .header n => { acc with currentSection := some n }
  | _ =>
    match expandLineToSteps line idx acc.currentSection with
    | .ok ss => { acc with steps := acc.steps ++ ss }
    | .error msg =>
      { acc with errors := acc.errors ++ ["Line " ++ toString (idx + 1) ++ ": " ++ msg] }

/-- The `lines.forEach` scan of `parseWorkout`, threading the line index. -/
def parseWorkoutAux (idx : Nat) (acc : ParseAcc) : List String → ParseAcc
  | [] => acc
  | l :: ls => parseWorkoutAux (idx + 1) (parseWorkoutLine acc idx l) ls

/-- `text.split("\n")`. -/
def splitLines (text : String) : List String :=
  (splitOnChar '\n' text.data).map String.mk

/-- `parseWorkout` (workout-timer.js lines 696-727). -/
def parseWorkout (text : String) : Except String WorkoutData :=
  let acc := parseWorkoutAux 0 ⟨[], [], none, none⟩ (splitLines text)
  if acc.errors ≠ [] then .error (String.intercalate ("\n") acc.errors)
  else .ok ⟨acc.title, acc.steps⟩

-- ### Session state machine

inductive Status
  | editing
  | inProgress
  | paused
  | done
deriving DecidableEq

/-- The `State` record of the source. `mainTimer` is modelled as a flag
(interval running or not); timestamps are milliseconds as `Nat`. -/
structure State where
  status : Status
  workoutData : WorkoutData
  stepIndex : Nat
  stepDuration : Nat
  stepElapsedMs : Nat
  stepResumedAt : Nat
  stepAnnounced : Bool
  stepEntryTime : Nat
  workoutStartTime : Nat
  totalPausedMs : Nat
  pauseStartTime : Nat
  lastAnnouncedSecond : Int
  mainTimer : Bool
deriving DecidableEq

/-- `createInitialState` (workout-timer.js lines 786-800). -/
def createInitialState : State :=
  { status := .editing
    workoutData := ⟨none, []⟩
    stepResumedAt := 0
    stepElapsedMs := 0
    stepEntryTime := 0
    stepIndex := 0
    stepDuration := 0
    stepAnnounced := false
    workoutStartTime := 0
    totalPausedMs := 0
    pauseStartTime := 0
    lastAnnouncedSecond := -1
    mainTimer := false }

/-- `getCurrentStep`; out-of-range indexing yields `none` (JavaScript
`undefined`). -/
def getCurrentStep (st : State) : Option Step :=
  st.workoutData.steps[st.stepIndex]?

/-- `getStepDuration` (workout-timer.js lines 749-755). -/
def getStepDuration : Step → Nat
  | .transition _ d _ => d
  | .exercise _ v _ _ _ => if v.unit = .seconds then v.value else 0
  | .rest d _ _ => d

def isTransitionStep : Step → Bool
  | .transition _ _ _ => true
  | _ => false

/-- `getStepElapsedMs` at wall-clock time `now`. -/
def getStepElapsedMs (st : State) (now : Nat) : Nat :=
  if st.stepResumedAt = 0 then st.stepElapsedMs
  else st.stepElapsedMs + (now - st.stepResumedAt)

/-- `getStepTimeLeftS`: `Math.max(0, stepDuration - Math.floor(elapsed/1000))`
is truncated `Nat` subtraction with floor division. -/
def getStepTimeLeftS (st : State) (now : Nat) : Nat :=
  st.stepDuration - getStepElapsedMs st now / 1000

/-- `finishWorkout` (state effects; speech is external). The source sets
`stepIndex = steps.length - 1`, which in `Nat` truncates at zero for an
empty step list (reachable only from states that required a non-empty
workout to start). -/
def finishWorkout (st : State) : State :=
  { st with status := .done
            stepIndex := st.workoutData.steps.length - 1
            mainTimer := false }

/-- The synchronous prefix of the async `announceCurrentStep`: for
non-transition steps the source stamps `stepResumedAt`, fires speech without
awaiting it, ensures the tick timer runs and marks the step announced, all
before its first suspension point; for transition steps everything after the
`await` on the announcement (timer start, `stepAnnounced`) is deferred to
speech completion and is not part of the synchronous transition. -/
def announceCurrentStepSync (st : State) (now : Nat) : State :=
  match getCurrentStep st with
  | none => st
  | some step =>
    if isTransitionStep step then st
    else { st with stepResumedAt := now, mainTimer := true, stepAnnounced := true }

/-- `enterCurrentStep` (workout-timer.js lines 1257-1287). -/
def enterCurrentStep (st : State) (now : Nat) : State :=
  if st.stepIndex ≥ st.workoutData.steps.length then finishWorkout st
  else if st.status = .editing ∨ st.status = .done then st
  else
    match getCurrentStep st with
    | none => st
    | some step =>
      let st1 : State :=
        { st with stepEntryTime := now
                  stepElapsedMs := 0
                  stepAnnounced := false
                  lastAnnouncedSecond := -1
                  stepDuration := getStepDuration step
                  stepResumedAt := if isTransitionStep step then 0 else now }
      if st1.status = .inProgress then announceCurrentStepSync st1 now else st1

/-- `beginWorkoutFromStart` (workout-timer.js lines 1147-1165). -/
def beginWorkoutFromStart (st : State) (now : Nat) : State :=
  let st1 : State :=
    { st with stepIndex := 0
              status := .inProgress
              workoutStartTime := now
              totalPausedMs := 0
              pauseStartTime := 0
              stepElapsedMs := 0
              stepResumedAt := 0 }
  let st2 : State :=
    match st1.workoutData.steps[st1.stepIndex]? with
    | some s => { st1 with stepDuration := getStepDuration s }
    | none => st1
  enterCurrentStep { st2 with mainTimer := true } now

inductive StartError
  | parseError (msg : String)
  | noSteps
deriving DecidableEq

/-- `startWorkout` (workout-timer.js lines 1131-1144): compile the text,
assign `state.workoutData`, fail with the no-steps error on an empty step
list (the throw happens after the assignment, before any status change),
otherwise begin the workout. Wake lock and speech unlock are external. -/
def startWorkout (text : String) (st : State) (now : Nat) : State × Option StartError :=
  match parseWorkout text with
  | .error msg => (st, some (.parseError msg))
  | .ok wd =>
    let st1 : State := { st with workoutData := wd }
    if wd.steps.length = 0 then (st1, some .noSteps)
    else (beginWorkoutFromStart st1 now, none)

/-- `togglePause` (workout-timer.js lines 1405-1438). The resume branch with
an unannounced step triggers `announceCurrentStep`, of which only the
synchronous prefix mutates state here. -/
def togglePause (st : State) (now : Nat) : State :=
  if st.status = .done then { st with status := .editing }
  else if st.status = .paused then
    let st1 : State :=
      { st with totalPausedMs := st.totalPausedMs + (now - st.pauseStartTime)
                pauseStartTime := 0
                status := .inProgress }
    let st2 : State :=
      if st1.stepAnnounced then { st1 with stepResumedAt := now }
      else announceCurrentStepSync st1 now
    { st2 with mainTimer := true }
  else if st.status = .inProgress then
    let st1 : State :=
      if st.stepResumedAt > 0 then
        { st with stepElapsedMs := (st.stepElapsedMs + (now - st.stepResumedAt)) / 1000 * 1000
                  stepResumedAt := 0 }
      else st
    { st1 with pauseStartTime := now, status := .paused, mainTimer := false }
  else st

-- ### Skip-forward navigation

/-- Breakpoint steps: transitions, rests, and rep-based exercises. -/
def isBreakpointStep : Step → Bool
  | .transition _ _ _ => true
  | .rest _ _ _ => true
  | .exercise _ v _ _ _ => decide (v.unit = .reps)

/-- The `for` loop of `findNextBreakpointIndex`, written with explicit fuel;
with fuel `steps.length` the fuel can only run out once the index has left
the list, where the loop also answers `steps.length`. -/
def findNextFromFuel (steps : List Step) : Nat → Nat → Nat
  | 0, _ => steps.length
  | fuel + 1, i =>
    match steps[i]? with
    | none => steps.length
    | some s => if isBreakpointStep s then i else findNextFromFuel steps fuel (i + 1)

/-- `findNextBreakpointIndex` (workout-timer.js lines 1378-1386). -/
def findNextBreakpointIndex (st : State) : Nat :=
  findNextFromFuel st.workoutData.steps st.workoutData.steps.length (st.stepIndex + 1)

/-- `skipToNextExercise` (workout-timer.js lines 1441-1462). -/
def skipToNextExercise (st : State) (now : Nat) : State :=
  let nextIndex := findNextBreakpointIndex st
  if nextIndex ≥ st.workoutData.steps.length then finishWorkout st
  else
    let st1 : State := { st with stepIndex := nextIndex }
    if st1.status = .inProgress then enterCurrentStep st1 now
    else
      let st2 : State :=
        { st1 with stepElapsedMs := 0
                   stepResumedAt := 0
                   stepAnnounced := false
                   stepEntryTime := now }
      match st2.workoutData.steps[st2.stepIndex]? with
      | some s => { st2 with stepDuration := getStepDuration s }
      | none => st2

-- ### Tick-time announcement logic

/-- The `duration` local of `announceCountdownIfNeeded` for non-transition
steps: rest duration, seconds-typed exercise value, or null. -/
def announceDuration : Step → Option Nat
  | .rest d _ _ => some d
  | .exercise _ v _ _ _ => if v.unit = .seconds then some v.value else none
  | .transition _ _ _ => none

/-- Whether the halfway announcement fires at `timeLeft` for `step`:
non-transition, timed, duration at least the threshold, and `timeLeft`
equal to `Math.floor(duration / 2)`. -/
def halfwayDue (step : Step) (timeLeft : Nat) : Bool :=
  match step with
  | .transition _ _ _ => false
  | _ =>
    match announceDuration step with
    | some d =>
      decide (HALFWAY_ANNOUNCEMENT_MIN_DURATION_S ≤ d) && decide (timeLeft = d / 2)
    | none => false

/-- Whether the 3-2-1 countdown fires at `timeLeft`. -/
def countdownDue (timeLeft : Nat) : Bool :=
  decide (timeLeft ≤ 3) && decide (0 < timeLeft)

/-- The announcement-relevant state driven by `onTimerTick`, with the spoken
cues logged as output (`halfwaySpoken` records the `timeLeft` at which each
halfway cue fired). -/
structure AnnState where
  lastAnnouncedSecond : Int
  halfwaySpoken : List Nat
  countdownSpoken : List Nat
deriving DecidableEq

/-- `announceCountdownIfNeeded` (workout-timer.js lines 852-897): transition
steps get only the countdown; other steps get the halfway check and then the
countdown check. -/
def announceCountdownIfNeeded (step : Step) (st : AnnState) (timeLeft : Nat) : AnnState :=
  match step with
  | .transition _ _ _ =>
    if countdownDue timeLeft then
      { st with countdownSpoken := st.countdownSpoken ++ [timeLeft] }
    else st
  | _ =>
    let st1 :=
      if halfwayDue step timeLeft then
        { st with halfwaySpoken := st.halfwaySpoken ++ [timeLeft] }
      else st
    if countdownDue timeLeft then
      { st1 with countdownSpoken := st1.countdownSpoken ++ [timeLeft] }
    else st1

/-- The announcement part of `onTimerTick` (workout-timer.js lines 828-833):
when `timeLeft` differs from `lastAnnouncedSecond`, record it and run
`announceCountdownIfNeeded`. -/
def onTickAnnounce (step : Step) (st : AnnState) (timeLeft : Nat) : AnnState :=
  if (timeLeft : Int) ≠ st.lastAnnouncedSecond then
    announceCountdownIfNeeded step { st with lastAnnouncedSecond := (timeLeft : Int) } timeLeft
  else st

/-- A run of ticks over a list of observed `timeLeft` values. Within one
step `stepDuration` is fixed and elapsed time only grows (pausing freezes
the elapsed accumulator on a whole second without changing its floor), so
the observed `timeLeft` sequence of a step is non-increasing. -/
def runTicks (step : Step) (st : AnnState) : List Nat → AnnState
  | [] => st
  | t :: ts => runTicks step (onTickAnnounce step st t) ts

-- ### Specification-side definitions used to state the claims

/-- The per-line error report entries the specification describes: one
`"Line <n+1>: <msg>"` entry for every line whose parse is an error. -/
def lineErrorMsgs : List String → Nat → List String
  | [], _ => []
  | l :: ls, i =>
    (match parseLine l i with
     | .error m _ _ => ["Line " ++ toString (i + 1) ++ ": " ++ m]
     | _ => []) ++ lineErrorMsgs ls (i + 1)

/-- The step sequence in document order the specification describes: each
line's expansion under the ambient section (the most recent header),
appended in order; error lines contribute nothing. -/
def docSteps : List String → Nat → Option String → List Step
  | [], _, _ => []
  | l :: ls, i, sec =>
    match parseLine l i with
    | .header n => docSteps ls (i + 1) (some n)
    | _ =>
      (match expandLineToSteps l i sec with
       | .ok ss => ss
       | .error _ => []) ++ docSteps ls (i + 1) sec

/-- A line that is blank or a `//` comment. -/
def isCommentOrBlank (l : String) : Bool :=
  decide (jsTrim l.data = []) || decide ((jsTrim l.data).take 2 = [ '/', '/'])

-- ### Theorems

/-- C1 (counterexample): parsing the line `Rest | 10` does not yield a Rest
step — `parseVolume "10"` is reps-typed (bare integers are reps), and rests
reject reps, so the line is a duration error and the compiled document
fails. -/
theorem rest_bare_integer_line_errors :
    parseLine ("Rest | 10") 0 =
      ParsedLine.error restRepsMsg ErrKind.duration (some StepKindTag.rest) ∧
    parseWorkout ("Rest | 10") = Except.error (("Line 1: ") ++ restRepsMsg) := by
  exact ⟨rfl, rfl⟩

/-- C1 (amended): `Rest | 10` fails with the rest-cannot-have-reps duration
error, while a seconds-typed line such as `Rest | 10s` yields a single Rest
step of duration 10 seconds and no error. -/
theorem rest_line_parsing :
    parseLine ("Rest | 10s") 0 = ParsedLine.rest ⟨10, VolumeUnit.seconds⟩ none ∧
    expandLineToSteps ("Rest | 10s") 0 none = Except.ok [Step.rest 10 none none] ∧
    parseLine ("Rest | 10") 0 =
      ParsedLine.error restRepsMsg ErrKind.duration (some StepKindTag.rest) := by
  exact ⟨rfl, rfl, rfl⟩

/-- C2: `Squats | 45s | each side` expands to exactly the four steps
Transition(changeExercises), Exercise(left), Transition(changeSides),
Exercise(right), and `Squats | 12 | each side` expands to the single step
Exercise(side=each) with a 12-rep volume. -/
theorem each_side_expansion :
    expandLineToSteps ("Squats | 45s | each side") 1 none =
      Except.ok [Step.transition TransKind.changeExercises CHANGE_EXERCISE_TRANSITION_S none,
                 Step.exercise ("Squats") ⟨45, VolumeUnit.seconds⟩ (some Side.left) none none,
                 Step.transition TransKind.changeSides CHANGE_SIDES_TRANSITION_S none,
                 Step.exercise ("Squats") ⟨45, VolumeUnit.seconds⟩ (some Side.right) none none] ∧
    expandLineToSteps ("Squats | 12 | each side") 1 none =
      Except.ok [Step.exercise ("Squats") ⟨12, VolumeUnit.reps⟩ (some Side.each) none none] := by
  exact ⟨rfl, rfl⟩

/-- C4: `parseVolume` is a pure function of its input token (determinism is
by construction of the embedding), and on the documented grammar examples it
returns the tabulated value and unit. -/
theorem parseVolume_grammar_examples :
    parseVolume ("1m30s") = Except.ok ⟨90, VolumeUnit.seconds⟩ ∧
    parseVolume ("2 min") = Except.ok ⟨120, VolumeUnit.seconds⟩ ∧
    parseVolume ("10") = Except.ok ⟨10, VolumeUnit.reps⟩ ∧
    parseVolume ("1 minute, 30 seconds") = Except.ok ⟨90, VolumeUnit.seconds⟩ := by
  exact ⟨rfl, rfl, rfl, rfl⟩

/-- C9: `parseVolume` fails on `10 reps, 5s` (comma list mixing reps with
time), `abc` (no pattern matches) and `1,,2` (comma list with an empty
fragment), in each case with the invalid-duration-class error whose message
carries the offending input string. -/
theorem parseVolume_failure_examples :
    parseVolume ("10 reps, 5s") = Except.error (VolumeErr.mixedUnits ("10 reps, 5s")) ∧
    parseVolume ("abc") = Except.error (VolumeErr.invalid ("abc")) ∧
    parseVolume ("1,,2") = Except.error (VolumeErr.mixedUnits ("1,,2")) := by
  exact ⟨rfl, rfl, rfl⟩

/-- C7 (counterexample): for a rest step of 21 seconds the halfway cue fires
at time-left 10 = Math.floor(21 / 2), which is not exactly half of 21 — so
the cue does not fire "exactly when time-left equals exactly half the step's
total duration". -/
theorem halfway_fires_at_floor_not_exact_half :
    (runTicks (Step.rest 21 none none) ⟨-1, [], []⟩ [21, 15, 10, 5]).halfwaySpoken = [10] ∧
    10 * 2 ≠ 21 := by
  exact ⟨rfl, by decide⟩

/-- C3: for a step of duration `D` whose announcement has completed and whose
timer is running, pausing at wall-clock `t1` (freezing the elapsed time,
floored to a whole second `E`) and resuming at any later wall-clock `t2`
yields a step time-left of exactly `D - E` immediately upon resume,
independent of the pause length `t2 - t1`. -/
theorem pause_resume_no_drift (st : State) (t1 t2 : Nat)
    (hstat : st.status = Status.inProgress)
    (hann : st.stepAnnounced = true)
    (hr0 : 0 < st.stepResumedAt)
    (hrt : st.stepResumedAt ≤ t1)
    (ht : t1 ≤ t2)
    (hE : (st.stepElapsedMs + (t1 - st.stepResumedAt)) / 1000 ≤ st.stepDuration) :
    getStepTimeLeftS (togglePause (togglePause st t1) t2) t2 =
      st.stepDuration - (st.stepElapsedMs + (t1 - st.stepResumedAt)) / 1000 := by
  have h2 : t2 ≠ 0 := by omega
  simp only [togglePause, hstat, hann, hr0, gt_iff_lt, if_pos, reduceIte]
  simp only [getStepTimeLeftS, getStepElapsedMs]
  simp [h2]

/-- Witness for `pause_resume_no_drift` at a concrete state: a 30-second
step, timer resumed at 1000 ms, paused at 5500 ms (elapsed 4 s), resumed at
100000 ms: time-left is 26 s. -/
theorem pause_resume_no_drift_witness :
    getStepTimeLeftS
      (togglePause
        (togglePause
          { status := Status.inProgress
            workoutData := ⟨none, []⟩
            stepIndex := 0
            stepDuration := 30
            stepElapsedMs := 0
            stepResumedAt := 1000
            stepAnnounced := true
            stepEntryTime := 900
            workoutStartTime := 900
            totalPausedMs := 0
            pauseStartTime := 0
            lastAnnouncedSecond := -1
            mainTimer := true } 5500) 100000) 100000 = 26 := by
  have h := pause_resume_no_drift
    { status := Status.inProgress
      workoutData := ⟨none, []⟩
      stepIndex := 0
      stepDuration := 30
      stepElapsedMs := 0
      stepResumedAt := 1000
      stepAnnounced := true
      stepEntryTime := 900
      workoutStartTime := 900
      totalPausedMs := 0
      pauseStartTime := 0
      lastAnnouncedSecond := -1
      mainTimer := true } 5500 100000 rfl rfl (by decide) (by decide) (by decide) (by decide)
  rw [h]
  rfl

/-- C5: when the current text compiles to zero steps, starting the workout
fails with the no-steps error and the session status is left unchanged at
Editing (compiled data is assigned before the throw, but no status or timing
field changes). -/
theorem start_with_zero_steps_fails (text : String) (st : State) (now : Nat)
    (wd : WorkoutData)
    (hok : parseWorkout text = Except.ok wd)
    (hsteps : wd.steps = [])
    (hstat : st.status = Status.editing) :
    (startWorkout text st now).2 = some StartError.noSteps ∧
    (startWorkout text st now).1.status = Status.editing := by
  simp only [startWorkout, hok]
  have hlen : wd.steps.length = 0 := by rw [hsteps]; rfl
  simp [hlen, hstat]

/-- Witness for `start_with_zero_steps_fails`: the empty document compiles
to zero steps, and starting from the initial editing state fails with the
no-steps error, leaving the status at Editing. -/
theorem start_with_zero_steps_fails_witness :
    (startWorkout ("") createInitialState 0).2 = some StartError.noSteps ∧
    (startWorkout ("") createInitialState 0).1.status = Status.editing :=
  start_with_zero_steps_fails ("") createInitialState 0 ⟨none, []⟩ rfl rfl rfl

/-- The skip-forward search either reports the end of the step list or an
index holding a breakpoint step. -/
theorem findNextFromFuel_spec (steps : List Step) :
    ∀ fuel i, findNextFromFuel steps fuel i = steps.length ∨
      ∃ s, steps[findNextFromFuel steps fuel i]? = some s ∧ isBreakpointStep s = true := by
  intro fuel
  induction fuel with
  | zero => intro i; left; rfl
  | succ n ih =>
    intro i
    rw [findNextFromFuel]
    cases hg : steps[i]? with
    | none => left; rfl
    | some s =>
      by_cases hb : isBreakpointStep s = true
      · right
        refine ⟨s, ?_, hb⟩
        simp [hb, hg]
      · simp only [hb, Bool.false_eq_true, if_false]
        exact ih (i + 1)

/-- The synchronous announcement prefix never changes the workout data, the
step index or the status. -/
theorem announceCurrentStepSync_frame (st : State) (now : Nat) :
    (announceCurrentStepSync st now).workoutData = st.workoutData ∧
    (announceCurrentStepSync st now).stepIndex = st.stepIndex ∧
    (announceCurrentStepSync st now).status = st.status := by
  unfold announceCurrentStepSync
  cases getCurrentStep st with
  | none => exact ⟨rfl, rfl, rfl⟩
  | some step =>
    by_cases h : isTransitionStep step = true
    · simp [h]
    · simp [h]

/-- Entering a step at an in-range index never changes the workout data or
the step index. -/
theorem enterCurrentStep_frame (st : State) (now : Nat)
    (h : st.stepIndex < st.workoutData.steps.length) :
    (enterCurrentStep st now).workoutData = st.workoutData ∧
    (enterCurrentStep st now).stepIndex = st.stepIndex := by
  unfold enterCurrentStep
  rw [if_neg (by omega)]
  by_cases he : st.status = Status.editing ∨ st.status = Status.done
  · rw [if_pos he]; exact ⟨rfl, rfl⟩
  · rw [if_neg he]
    cases hcur : getCurrentStep st with
    | none => exact ⟨rfl, rfl⟩
    | some step =>
      simp only
      split
      · exact ⟨(announceCurrentStepSync_frame _ _).1, (announceCurrentStepSync_frame _ _).2.1⟩
      · exact ⟨rfl, rfl⟩

/-- C8: skipping forward from any session state either lands on a step that
is a Transition, a Rest, or a reps-based Exercise (a breakpoint step), or
finishes the workout, transitioning the session to Done. -/
theorem skip_forward_lands_on_breakpoint (st : State) (now : Nat) :
    (skipToNextExercise st now).status = Status.done ∨
    ∃ s, (skipToNextExercise st now).workoutData.steps[(skipToNextExercise st now).stepIndex]? =
          some s ∧ isBreakpointStep s = true := by
  rcases findNextFromFuel_spec st.workoutData.steps st.workoutData.steps.length
      (st.stepIndex + 1) with hend | ⟨s, hs, hb⟩
  · left
    simp only [skipToNextExercise, findNextBreakpointIndex]
    rw [hend, if_pos (le_refl _)]
    rfl
  · right
    have hlt : findNextFromFuel st.workoutData.steps st.workoutData.steps.length
        (st.stepIndex + 1) < st.workoutData.steps.length := by
      by_contra hge
      rw [List.getElem?_eq_none (Nat.le_of_not_lt hge)] at hs
      cases hs
    have hframe : (skipToNextExercise st now).workoutData = st.workoutData ∧
        (skipToNextExercise st now).stepIndex =
          findNextFromFuel st.workoutData.steps st.workoutData.steps.length (st.stepIndex + 1) := by
      simp only [skipToNextExercise, findNextBreakpointIndex]
      rw [if_neg (by omega)]
      split
      · exact enterCurrentStep_frame _ _ (by simpa using hlt)
      · split <;> exact ⟨rfl, rfl⟩
    refine ⟨s, ?_, hb⟩
    rw [hframe.1, hframe.2]
    exact hs

/-- The compiler scan accumulates exactly the per-line error entries and the
per-line step expansions under the evolving section context, on top of
whatever the accumulator already holds. -/
theorem parseWorkoutAux_spec (ls : List String) :
    ∀ (i : Nat) (acc : ParseAcc),
      (parseWorkoutAux i acc ls).errors = acc.errors ++ lineErrorMsgs ls i ∧
      (parseWorkoutAux i acc ls).steps = acc.steps ++ docSteps ls i acc.currentSection := by
  induction ls with
  | nil => intro i acc; simp [parseWorkoutAux, lineErrorMsgs, docSteps]
  | cons l ls ih =>
    intro i acc
    simp only [parseWorkoutAux, lineErrorMsgs, docSteps]
    cases hp : parseLine l i with
    | empty =>
      have hex : expandLineToSteps l i acc.currentSection = Except.ok [] := by
        unfold expandLineToSteps; rw [hp]
      simp only [parseWorkoutLine, hp, hex]
      rcases ih (i + 1) { acc with steps := acc.steps ++ [] } with ⟨he, hs⟩
      simp only [List.append_nil] at he hs ⊢
      exact ⟨he, hs⟩
    | title n =>
      have hex : expandLineToSteps l i acc.currentSection = Except.ok [] := by
        unfold expandLineToSteps; rw [hp]
      simp only [parseWorkoutLine, hp, hex]
      rcases ih (i + 1) { acc with title := some n } with ⟨he, hs⟩
      simp only [List.nil_append] at he hs ⊢
      exact ⟨he, hs⟩
    | header n =>
      simp only [parseWorkoutLine, hp]
      rcases ih (i + 1) { acc with currentSection := some n } with ⟨he, hs⟩
      simp only [List.nil_append] at he hs ⊢
      exact ⟨he, hs⟩
    | exercise n v m no =>
      have hok : ∃ ss, expandLineToSteps l i acc.currentSection = Except.ok ss := by
        simp only [expandLineToSteps, hp]
        split
        · split <;> exact ⟨_, rfl⟩
        · split <;> exact ⟨_, rfl⟩
      rcases hok with ⟨ss, hex⟩
      simp only [parseWorkoutLine, hp, hex]
      rcases ih (i + 1) { acc with steps := acc.steps ++ ss } with ⟨he, hs⟩
      simp only [List.nil_append] at he hs ⊢
      rw [he, hs]
      exact ⟨rfl, by rw [List.append_assoc]⟩
    | rest v no =>
      have hex : expandLineToSteps l i acc.currentSection =
          Except.ok [Step.rest v.value no acc.currentSection] := by
        unfold expandLineToSteps; rw [hp]
      simp only [parseWorkoutLine, hp, hex]
      rcases ih (i + 1) { acc with steps := acc.steps ++ [Step.rest v.value no acc.currentSection] }
        with ⟨he, hs⟩
      simp only [List.nil_append] at he hs ⊢
      rw [he, hs]
      exact ⟨rfl, by rw [List.append_assoc]⟩
    | error m k stp =>
      have hex : expandLineToSteps l i acc.currentSection = Except.error m := by
        unfold expandLineToSteps; rw [hp]
      simp only [parseWorkoutLine, hp, hex]
      rcases ih (i + 1)
          { acc with errors := acc.errors ++ ["Line " ++ toString (i + 1) ++ ": " ++ m] }
        with ⟨he, hs⟩
      rw [he, hs]
      exact ⟨by rw [List.append_assoc], rfl⟩

/-- A blank or comment line parses to the empty result at every index. -/
theorem parseLine_of_isCommentOrBlank (l : String) (i : Nat)
    (h : isCommentOrBlank l = true) : parseLine l i = ParsedLine.empty := by
  unfold isCommentOrBlank at h
  rw [Bool.or_eq_true, decide_eq_true_iff, decide_eq_true_iff] at h
  unfold parseLine
  rw [if_pos h]

/-- A scan over blank and comment lines only leaves the accumulator
untouched. -/
theorem parseWorkoutAux_all_blank (ls : List String) :
    ∀ (i : Nat) (acc : ParseAcc), (∀ l ∈ ls, isCommentOrBlank l = true) →
      parseWorkoutAux i acc ls = acc := by
  induction ls with
  | nil => intro i acc _; rfl
  | cons l ls ih =>
    intro i acc hall
    have hp : parseLine l i = ParsedLine.empty :=
      parseLine_of_isCommentOrBlank l i (hall l (by simp))
    have hex : expandLineToSteps l i acc.currentSection = Except.ok [] := by
      unfold expandLineToSteps; rw [hp]
    simp only [parseWorkoutAux, parseWorkoutLine, hp, hex, List.append_nil]
    exact ih (i + 1) acc (fun x hx => hall x (by simp [hx]))

/-- C6: the Workout Compiler scans every line. If any line errs it fails
with the single aggregate report joining one `"Line <n+1>: <msg>"` entry per
erroneous line; otherwise it returns workout data whose steps are the
per-line expansions in document order under the ambient section context. In
particular a document of only blank and comment lines compiles without error
to an empty step list. -/
theorem parseWorkout_error_aggregation (text : String) :
    (lineErrorMsgs (splitLines text) 0 ≠ [] →
      parseWorkout text =
        Except.error (String.intercalate ("\n") (lineErrorMsgs (splitLines text) 0))) ∧
    (lineErrorMsgs (splitLines text) 0 = [] →
      ∃ t, parseWorkout text = Except.ok ⟨t, docSteps (splitLines text) 0 none⟩) ∧
    ((∀ l ∈ splitLines text, isCommentOrBlank l = true) →
      parseWorkout text = Except.ok ⟨none, []⟩) := by
  rcases parseWorkoutAux_spec (splitLines text) 0 ⟨[], [], none, none⟩ with ⟨he, hs⟩
  simp only [List.nil_append] at he hs
  refine ⟨?_, ?_, ?_⟩
  · intro hne
    unfold parseWorkout
    rw [if_pos (by rw [he]; exact hne), he]
  · intro hnil
    refine ⟨(parseWorkoutAux 0 ⟨[], [], none, none⟩ (splitLines text)).title, ?_⟩
    unfold parseWorkout
    rw [if_neg (by rw [he, hnil]; simp), hs]
  · intro hall
    unfold parseWorkout
    rw [parseWorkoutAux_all_blank (splitLines text) 0 ⟨[], [], none, none⟩ hall]
    rfl

/-- Witness for `parseWorkout_error_aggregation`, discharging each
hypothesis at a concrete document: a comment-and-blank document compiles to
no steps; a document whose only line errs fails with that line's entry; a
well-formed document compiles to its in-order expansion. -/
theorem parseWorkout_error_aggregation_witness :
    parseWorkout ("// warm up\n \n") = Except.ok ⟨none, []⟩ ∧
    parseWorkout ("Squats") = Except.error ("Line 1: Expected 2-3 parts, got 1") ∧
    (∃ t, parseWorkout ("Jog | 30s") =
      Except.ok ⟨t, docSteps (splitLines ("Jog | 30s")) 0 none⟩) := by
  refine ⟨(parseWorkout_error_aggregation ("// warm up\n \n")).2.2 (by decide), ?_, ?_⟩
  · have h := (parseWorkout_error_aggregation ("Squats")).1 (by decide)
    rw [h]
    rfl
  · exact (parseWorkout_error_aggregation ("Jog | 30s")).2.1 (by decide)

/-- One tick changes the halfway log exactly when the integer second is new
and the halfway cue is due. -/
theorem onTickAnnounce_halfway (step : Step) (st : AnnState) (t : Nat) :
    (onTickAnnounce step st t).halfwaySpoken =
      if (t : Int) ≠ st.lastAnnouncedSecond ∧ halfwayDue step t = true
      then st.halfwaySpoken ++ [t] else st.halfwaySpoken := by
  unfold onTickAnnounce announceCountdownIfNeeded
  cases step <;> split_ifs <;> simp_all [halfwayDue]

/-- One tick records the integer second it observed. -/
theorem onTickAnnounce_last (step : Step) (st : AnnState) (t : Nat) :
    (onTickAnnounce step st t).lastAnnouncedSecond =
      if (t : Int) ≠ st.lastAnnouncedSecond then (t : Int) else st.lastAnnouncedSecond := by
  unfold onTickAnnounce announceCountdownIfNeeded
  cases step <;> split_ifs <;> simp_all

/-- A tick on an already-observed second leaves the state unchanged. -/
theorem onTickAnnounce_same (step : Step) (st : AnnState) (t : Nat)
    (h : (t : Int) = st.lastAnnouncedSecond) : onTickAnnounce step st t = st := by
  unfold onTickAnnounce
  rw [if_neg (by simpa using h)]

/-- The halfway log only grows along a run of ticks. -/
theorem runTicks_halfway_grows (step : Step) :
    ∀ (ts : List Nat) (st : AnnState),
      st.halfwaySpoken.length ≤ (runTicks step st ts).halfwaySpoken.length := by
  intro ts
  induction ts with
  | nil => intro st; exact le_refl _
  | cons t ts ih =>
    intro st
    refine le_trans ?_ (ih (onTickAnnounce step st t))
    rw [onTickAnnounce_halfway]
    split
    · simp
    · exact le_refl _

/-- Ticks at seconds where the halfway cue is not due never extend the
halfway log. -/
theorem runTicks_no_halfway (step : Step) :
    ∀ (ts : List Nat), (∀ t ∈ ts, halfwayDue step t = false) →
      ∀ st : AnnState, (runTicks step st ts).halfwaySpoken = st.halfwaySpoken := by
  intro ts
  induction ts with
  | nil => intro _ st; rfl
  | cons t ts ih =>
    intro hts st
    have h1 : (onTickAnnounce step st t).halfwaySpoken = st.halfwaySpoken := by
      rw [onTickAnnounce_halfway,
        if_neg (fun h => by rw [hts t (by simp)] at h; exact Bool.false_ne_true h.2)]
    rw [runTicks, ih (fun u hu => hts u (by simp [hu])), h1]

/-- The halfway cue fires at exactly one second value per step. -/
theorem halfwayDue_unique (step : Step) (a b : Nat)
    (ha : halfwayDue step a = true) (hb : halfwayDue step b = true) : a = b := by
  cases step with
  | transition k d sec => simp [halfwayDue] at ha
  | rest d no sec =>
    simp [halfwayDue, announceDuration] at ha hb
    omega
  | exercise nm v sd no sec =>
    cases hv : v.unit with
    | seconds =>
      simp [halfwayDue, announceDuration, hv] at ha hb
      omega
    | reps => simp [halfwayDue, announceDuration, hv] at ha

/-- After the halfway cue has fired (the last observed second is the halfway
point), a non-increasing run bounded by that second can never fire it
again. -/
theorem runTicks_after_hit (step : Step) (h : Nat)
    (huniq : ∀ u, halfwayDue step u = true → u = h) :
    ∀ (ts : List Nat), ts.Pairwise (fun a b => b ≤ a) → (∀ t ∈ ts, t ≤ h) →
      ∀ st : AnnState, st.lastAnnouncedSecond = (h : Int) →
        (runTicks step st ts).halfwaySpoken = st.halfwaySpoken := by
  intro ts
  induction ts with
  | nil => intro _ _ st _; rfl
  | cons t ts ih =>
    intro hmono hle st hlast
    rcases List.pairwise_cons.mp hmono with ⟨hhead, htail⟩
    by_cases heq : t = h
    · have hsame : onTickAnnounce step st t = st :=
        onTickAnnounce_same step st t (by rw [hlast, heq])
      rw [runTicks, hsame]
      exact ih htail (fun u hu => hle u (by simp [hu])) st hlast
    · have hlt : t < h := Nat.lt_of_le_of_ne (hle t (by simp)) heq
      have hdt : halfwayDue step t = false := by
        by_contra hc
        exact heq (huniq t (Bool.not_eq_false _ ▸ Bool.of_not_eq_false hc))
      have h1 : (onTickAnnounce step st t).halfwaySpoken = st.halfwaySpoken := by
        rw [onTickAnnounce_halfway,
          if_neg (fun hx => by rw [hdt] at hx; exact Bool.false_ne_true hx.2)]
      rw [runTicks, runTicks_no_halfway step ts ?_ (onTickAnnounce step st t), h1]
      intro u hu
      have hut : u ≤ t := hhead u hu
      by_contra hc
      have := huniq u (Bool.not_eq_false _ ▸ Bool.of_not_eq_false hc)
      omega

/-- Along any non-increasing run starting with an empty halfway log, the
halfway cue fires at most once. -/
theorem runTicks_halfway_at_most_one (step : Step) :
    ∀ (ts : List Nat), ts.Pairwise (fun a b => b ≤ a) →
      ∀ st : AnnState, st.halfwaySpoken = [] →
        (runTicks step st ts).halfwaySpoken.length ≤ 1 := by
  intro ts
  induction ts with
  | nil => intro _ st hnil; simp [runTicks, hnil]
  | cons t ts ih =>
    intro hmono st hnil
    rcases List.pairwise_cons.mp hmono with ⟨hhead, htail⟩
    rw [runTicks]
    by_cases hcond : (t : Int) ≠ st.lastAnnouncedSecond ∧ halfwayDue step t = true
    · have h1 : (onTickAnnounce step st t).halfwaySpoken = [t] := by
        rw [onTickAnnounce_halfway, if_pos hcond, hnil]
        rfl
      have h2 : (onTickAnnounce step st t).lastAnnouncedSecond = (t : Int) := by
        rw [onTickAnnounce_last, if_pos hcond.1]
      rw [runTicks_after_hit step t
        (fun u hu => halfwayDue_unique step u t hu hcond.2) ts htail hhead _ h2, h1]
      simp
    · have h1 : (onTickAnnounce step st t).halfwaySpoken = [] := by
        rw [onTickAnnounce_halfway, if_neg hcond, hnil]
      exact ih htail _ h1

/-- Every entry of the halfway log is a second at which the cue was due. -/
theorem runTicks_halfway_mem_due (step : Step) :
    ∀ (ts : List Nat) (st : AnnState),
      (∀ u ∈ st.halfwaySpoken, halfwayDue step u = true) →
      ∀ u ∈ (runTicks step st ts).halfwaySpoken, halfwayDue step u = true := by
  intro ts
  induction ts with
  | nil => intro st hst; exact hst
  | cons t ts ih =>
    intro st hst
    rw [runTicks]
    refine ih _ ?_
    rw [onTickAnnounce_halfway]
    by_cases hcond : (t : Int) ≠ st.lastAnnouncedSecond ∧ halfwayDue step t = true
    · rw [if_pos hcond]
      intro u hu
      rcases List.mem_append.mp hu with hu | hu
      · exact hst u hu
      · rw [List.mem_singleton.mp hu]
        exact hcond.2
    · rw [if_neg hcond]
      exact hst

/-- If the halfway second occurs in a non-increasing run and has not been
observed yet, the halfway cue does fire. -/
theorem runTicks_halfway_fires (step : Step) (h : Nat)
    (hdue : halfwayDue step h = true)
    (huniq : ∀ u, halfwayDue step u = true → u = h) :
    ∀ (ts : List Nat), ts.Pairwise (fun a b => b ≤ a) → h ∈ ts →
      ∀ st : AnnState, st.lastAnnouncedSecond ≠ (h : Int) →
        st.halfwaySpoken.length < (runTicks step st ts).halfwaySpoken.length := by
  intro ts
  induction ts with
  | nil => intro _ hmem; cases hmem
  | cons t ts ih =>
    intro hmono hmem st hlast
    rcases List.pairwise_cons.mp hmono with ⟨hhead, htail⟩
    rw [runTicks]
    by_cases heq : t = h
    · have h1 : (onTickAnnounce step st t).halfwaySpoken = st.halfwaySpoken ++ [t] := by
        rw [onTickAnnounce_halfway,
          if_pos ⟨by rw [heq]; exact fun hx => hlast hx.symm, heq ▸ hdue⟩]
      calc st.halfwaySpoken.length
          < (onTickAnnounce step st t).halfwaySpoken.length := by rw [h1]; simp
        _ ≤ _ := runTicks_halfway_grows step ts _
    · have hmem2 : h ∈ ts := by
        rcases List.mem_cons.mp hmem with hx | hx
        · exact absurd hx.symm heq
        · exact hx
      by_cases hsame : (t : Int) = st.lastAnnouncedSecond
      · rw [onTickAnnounce_same step st t hsame]
        exact ih htail hmem2 st hlast
      · have hdt : halfwayDue step t = false := by
          by_contra hc
          exact heq (huniq t (Bool.not_eq_false _ ▸ Bool.of_not_eq_false hc))
        have h1 : (onTickAnnounce step st t).halfwaySpoken = st.halfwaySpoken := by
          rw [onTickAnnounce_halfway,
            if_neg (fun hx => by rw [hdt] at hx; exact Bool.false_ne_true hx.2)]
        have h2 : (onTickAnnounce step st t).lastAnnouncedSecond ≠ (h : Int) := by
          rw [onTickAnnounce_last, if_pos hsame]
          intro hx
          exact heq (by exact_mod_cast hx)
        have := ih htail hmem2 (onTickAnnounce step st t) h2
        rw [h1] at this
        exact this

/-- C7 (amended): along any non-increasing sequence of observed time-left
values for one step, starting from a fresh step entry
(`lastAnnouncedSecond = -1`), the halfway cue fires at most once; every
firing happens at a second where the cue is due — that is, only for
non-transition steps whose duration meets the 20-second minimum, and only at
time-left `⌊duration / 2⌋` (exactly half for even durations); and if that
halfway second is observed at all, the cue does fire. -/
theorem halfway_announcement_once (step : Step) (ts : List Nat)
    (hmono : ts.Pairwise (fun a b => b ≤ a)) :
    (runTicks step ⟨-1, [], []⟩ ts).halfwaySpoken.length ≤ 1 ∧
    (∀ u ∈ (runTicks step ⟨-1, [], []⟩ ts).halfwaySpoken, halfwayDue step u = true) ∧
    ((∃ t ∈ ts, halfwayDue step t = true) →
      (runTicks step ⟨-1, [], []⟩ ts).halfwaySpoken ≠ []) := by
  refine ⟨runTicks_halfway_at_most_one step ts hmono _ rfl,
          runTicks_halfway_mem_due step ts _ (by simp), ?_⟩
  rintro ⟨t, ht, hdue⟩ hnil
  have hlt := runTicks_halfway_fires step t hdue
    (fun u hu => halfwayDue_unique step u t hu hdue) ts hmono ht ⟨-1, [], []⟩
    (show (-1 : Int) ≠ (t : Int) by omega)
  rw [hnil] at hlt
  simp at hlt

/-- Witness for `halfway_announcement_once` at a concrete 30-second rest
step and tick trace: the cue fires exactly once (at time-left 15). -/
theorem halfway_announcement_once_witness :
    (runTicks (Step.rest 30 none none) ⟨-1, [], []⟩ [30, 16, 15, 14, 3]).halfwaySpoken.length ≤ 1 ∧
    (runTicks (Step.rest 30 none none) ⟨-1, [], []⟩ [30, 16, 15, 14, 3]).halfwaySpoken ≠ [] := by
  have h := halfway_announcement_once (Step.rest 30 none none) [30, 16, 15, 14, 3] (by decide)
  exact ⟨h.1, h.2.2 ⟨15, by decide, by decide⟩⟩

/-- Digits are not upper-case letters. -/
theorem upper_not_digit (c : Char) (h : jsIsDigit c = true) : isUpperChar c = false := by
  simp only [jsIsDigit, Bool.and_eq_true, decide_eq_true_iff] at h
  simp only [isUpperChar, Bool.and_eq_false_iff, decide_eq_false_iff_not]
  omega

/-- White space characters are not upper-case letters. -/
theorem upper_not_space (c : Char) (h : jsIsSpace c = true) : isUpperChar c = false := by
  simp only [jsIsSpace, Bool.or_eq_true, Bool.and_eq_true, decide_eq_true_iff] at h
  simp only [isUpperChar, Bool.and_eq_false_iff, decide_eq_false_iff_not]
  omega

/-- A member of a list is either a member of its `dropWhile` or satisfies the
predicate. -/
theorem mem_dropWhile_or (p : Char → Bool) (l : List Char) (c : Char) (hc : c ∈ l) :
    c ∈ l.dropWhile p ∨ p c = true := by
  rw [← List.takeWhile_append_dropWhile (p := p) (l := l)] at hc
  rcases List.mem_append.mp hc with h | h
  · right; exact List.mem_takeWhile_imp h
  · left; exact h

/-- A member of a list is a member of its trim or is white space. -/
theorem mem_jsTrim_or_space (l : List Char) (c : Char) (hc : c ∈ l) :
    c ∈ jsTrim l ∨ jsIsSpace c = true := by
  rcases mem_dropWhile_or jsIsSpace l c hc with h1 | h1
  · rw [← List.mem_reverse] at h1
    rcases mem_dropWhile_or jsIsSpace _ c h1 with h2 | h2
    · left
      unfold jsTrim
      rw [List.mem_reverse]
      exact h2
    · right; exact h2
  · right; exact h1

/-- A member of a list is a digit, white space, or a member of what remains
after skipping the leading digits and then the leading white space. -/
theorem mem_split_digits_space (cs : List Char) (c : Char) (hc : c ∈ cs) :
    jsIsDigit c = true ∨ jsIsSpace c = true ∨
      c ∈ (cs.dropWhile jsIsDigit).dropWhile jsIsSpace := by
  rcases mem_dropWhile_or jsIsDigit cs c hc with h | h
  · rcases mem_dropWhile_or jsIsSpace _ c h with h2 | h2
    · right; right; exact h2
    · right; left; exact h2
  · left; exact h

/-- Decomposition through an optional-literal-prefix matcher: the consumed
prefix has no upper-case letters. -/
theorem opt_decomp_aux (lit : List Char) (hlit : ∀ c ∈ lit, isUpperChar c = false)
    (n : Nat) (cs fcs : List Char)
    (hf : fcs = if cs.take n = lit then cs.drop n else cs) :
    ∃ pre, cs = pre ++ fcs ∧ ∀ c ∈ pre, isUpperChar c = false := by
  rw [hf]
  by_cases h : cs.take n = lit
  · rw [if_pos h]
    exact ⟨cs.take n, (List.take_append_drop n cs).symm, fun c hc => hlit c (h ▸ hc)⟩
  · rw [if_neg h]
    exact ⟨[], rfl, by simp⟩

/-- Chaining two lower-case-prefix decompositions. -/
theorem decomp_trans {cs mid fin : List Char}
    (h1 : ∃ pre, cs = pre ++ mid ∧ ∀ c ∈ pre, isUpperChar c = false)
    (h2 : ∃ pre, mid = pre ++ fin ∧ ∀ c ∈ pre, isUpperChar c = false) :
    ∃ pre, cs = pre ++ fin ∧ ∀ c ∈ pre, isUpperChar c = false := by
  rcases h1 with ⟨p1, e1, l1⟩
  rcases h2 with ⟨p2, e2, l2⟩
  refine ⟨p1 ++ p2, by rw [e1, e2, List.append_assoc], ?_⟩
  intro c hc
  rcases List.mem_append.mp hc with hc | hc
  · exact l1 c hc
  · exact l2 c hc

theorem uteOpt_decomp (cs : List Char) :
    ∃ pre, cs = pre ++ uteOpt cs ∧ ∀ c ∈ pre, isUpperChar c = false :=
  opt_decomp_aux [ 'u', 't', 'e'] (by decide) 3 cs (uteOpt cs) rfl

theorem sOpt_decomp (cs : List Char) :
    ∃ pre, cs = pre ++ sOpt cs ∧ ∀ c ∈ pre, isUpperChar c = false :=
  opt_decomp_aux [ 's'] (by decide) 1 cs (sOpt cs) rfl

theorem ondOpt_decomp (cs : List Char) :
    ∃ pre, cs = pre ++ ondOpt cs ∧ ∀ c ∈ pre, isUpperChar c = false :=
  opt_decomp_aux [ 'o', 'n', 'd'] (by decide) 3 cs (ondOpt cs) rfl

theorem minTail_decomp (cs : List Char) :
    ∃ pre, cs = pre ++ minTail cs ∧ ∀ c ∈ pre, isUpperChar c = false := by
  unfold minTail
  by_cases h : cs.take 2 = [ 'i', 'n']
  · rw [if_pos h]
    refine decomp_trans (decomp_trans ?_ (uteOpt_decomp (cs.drop 2))) (sOpt_decomp _)
    exact ⟨cs.take 2, (List.take_append_drop 2 cs).symm,
      fun c hc => by rw [h] at hc; fin_cases hc <;> decide⟩
  · rw [if_neg h]
    exact ⟨[], rfl, by simp⟩

theorem secTail_decomp (cs : List Char) :
    ∃ pre, cs = pre ++ secTail cs ∧ ∀ c ∈ pre, isUpperChar c = false := by
  unfold secTail
  by_cases h : cs.take 2 = [ 'e', 'c']
  · rw [if_pos h]
    refine decomp_trans (decomp_trans ?_ (ondOpt_decomp (cs.drop 2))) (sOpt_decomp _)
    exact ⟨cs.take 2, (List.take_append_drop 2 cs).symm,
      fun c hc => by rw [h] at hc; fin_cases hc <;> decide⟩
  · rw [if_neg h]
    exact ⟨[], rfl, by simp⟩

/-- A successful all-digits match means every character is a digit. -/
theorem matchAllDigits_noUpper {cs : List Char} {n : Nat}
    (h : matchAllDigits cs = some n) : ∀ c ∈ cs, isUpperChar c = false := by
  unfold matchAllDigits at h
  split_ifs at h with hc
  intro c hcm
  exact upper_not_digit c (List.all_eq_true.mp hc.2 c hcm)

/-- A successful reps match contains only digits, white space and the
lower-case letters of `rep(s)`. -/
theorem matchReps_noUpper {cs : List Char} {n : Nat}
    (h : matchReps cs = some n) : ∀ c ∈ cs, isUpperChar c = false := by
  unfold matchReps at h
  dsimp only [] at h
  split_ifs at h with hc
  intro c hcm
  rcases mem_split_digits_space cs c hcm with hd | hs | hr
  · exact upper_not_digit c hd
  · exact upper_not_space c hs
  · rcases hc.2 with h2 | h2 <;> rw [h2] at hr <;> fin_cases hr <;> decide

/-- A successful combined minutes-seconds match contains only digits, white
space and lower-case unit letters. -/
theorem matchCombined_noUpper {cs : List Char} {n : Nat}
    (h : matchCombined cs = some n) : ∀ c ∈ cs, isUpperChar c = false := by
  unfold matchCombined at h
  dsimp only [] at h
  split at h
  case _ r1 heq =>
    split at h
    case _ r4 heq2 =>
      split_ifs at h with hcond
      intro c hcm
      rcases mem_split_digits_space cs c hcm with hd | hs | hr
      · exact upper_not_digit c hd
      · exact upper_not_space c hs
      · rw [heq] at hr
        rcases List.mem_cons.mp hr with rfl | hr1
        · decide
        · rcases minTail_decomp r1 with ⟨preM, heM, hlM⟩
          rw [heM] at hr1
          rcases List.mem_append.mp hr1 with hpre | hmt
          · exact hlM c hpre
          · rcases mem_dropWhile_or jsIsSpace (minTail r1) c hmt with hr2 | hs2
            · rcases mem_dropWhile_or jsIsDigit _ c hr2 with hr3 | hd3
              · rcases mem_dropWhile_or jsIsSpace _ c hr3 with hr4 | hs4
                · rw [heq2] at hr4
                  rcases List.mem_cons.mp hr4 with rfl | hr5
                  · decide
                  · rcases secTail_decomp r4 with ⟨preS, heS, hlS⟩
                    rw [hcond.2.2, List.append_nil] at heS
                    rw [heS] at hr5
                    exact hlS c hr5
                · exact upper_not_space c hs4
              · exact upper_not_digit c hd3
            · exact upper_not_space c hs2
    case _ => cases h
  case _ => cases h

/-- A successful simple seconds-or-minutes match contains only digits, white
space and lower-case unit letters. -/
theorem matchSimple_noUpper {cs : List Char} {p : Nat × Bool}
    (h : matchSimple cs = some p) : ∀ c ∈ cs, isUpperChar c = false := by
  unfold matchSimple at h
  dsimp only [] at h
  split_ifs at h with hds
  intro c hcm
  rcases mem_split_digits_space cs c hcm with hd | hs | hr
  · exact upper_not_digit c hd
  · exact upper_not_space c hs
  · split at h
    case _ r1 heq =>
      split_ifs at h with hsec
      rw [heq] at hr
      rcases List.mem_cons.mp hr with rfl | hr1
      · decide
      · rcases secTail_decomp r1 with ⟨preS, heS, hlS⟩
        rw [hsec, List.append_nil] at heS
        rw [heS] at hr1
        exact hlS c hr1
    case _ r1 heq =>
      split_ifs at h with hmin
      rw [heq] at hr
      rcases List.mem_cons.mp hr with rfl | hr1
      · decide
      · rcases minTail_decomp r1 with ⟨preM, heM, hlM⟩
        rw [hmin, List.append_nil] at heM
        rw [heM] at hr1
        exact hlM c hr1
    case _ => cases h

/-- A successfully parsed comma-free fragment has no upper-case letter. -/
theorem parseVolumeFrag_noUpper {s : List Char} {v : Volume}
    (h : parseVolumeFrag s = Except.ok v) : ∀ c ∈ s, isUpperChar c = false := by
  intro c hc
  rcases mem_jsTrim_or_space s c hc with hm | hs
  · unfold parseVolumeFrag at h
    dsimp only [] at h
    split at h
    case _ n heq => exact matchAllDigits_noUpper heq c hm
    case _ =>
      split at h
      case _ n heq => exact matchReps_noUpper heq c hm
      case _ =>
        split at h
        case _ n heq => exact matchCombined_noUpper heq c hm
        case _ =>
          split at h
          case _ n heq => exact matchSimple_noUpper heq c hm
          case _ n heq => exact matchSimple_noUpper heq c hm
          case _ => cases h
  · exact upper_not_space c hs

/-- A successful comma-list sum means every fragment parsed successfully. -/
theorem sumFragments_ok {orig : List Char} :
    ∀ {ps : List (List Char)} {total : Nat},
      sumFragments orig ps = Except.ok total →
      ∀ p ∈ ps, ∃ v, parseVolumeFrag p = Except.ok v := by
  intro ps
  induction ps with
  | nil => intro total _ p hp; cases hp
  | cons q ps ih =>
    intro total h p hp
    unfold sumFragments at h
    split_ifs at h with hq
    split at h
    case _ e heq => cases h
    case _ v heq =>
      split_ifs at h with hu
      split at h
      case _ e heq2 => cases h
      case _ t heq2 =>
        rcases List.mem_cons.mp hp with rfl | hp2
        · exact ⟨v, heq⟩
        · exact ih heq2 p hp2

/-- The split-on-a-character parts of a list are never empty. -/
theorem splitOnChar_ne_nil (sep : Char) (cs : List Char) : splitOnChar sep cs ≠ [] := by
  cases cs with
  | nil => simp [splitOnChar]
  | cons a rest =>
    rw [splitOnChar]
    split_ifs
    · simp
    · split <;> simp

/-- Every member of a list is the separator or lies in one of its
split-on-the-separator parts. -/
theorem mem_splitOnChar (sep : Char) :
    ∀ (cs : List Char) (c : Char), c ∈ cs →
      c = sep ∨ ∃ p ∈ splitOnChar sep cs, c ∈ p := by
  intro cs
  induction cs with
  | nil => intro c hc; cases hc
  | cons a rest ih =>
    intro c hc
    by_cases ha : a = sep
    · rcases List.mem_cons.mp hc with rfl | hc2
      · left; exact ha
      · rcases ih c hc2 with h | ⟨p, hp, hcp⟩
        · left; exact h
        · right
          refine ⟨p, ?_, hcp⟩
          rw [splitOnChar, if_pos ha]
          exact List.mem_cons_of_mem _ hp
    · rcases hh : splitOnChar sep rest with _ | ⟨hd, tl⟩
      · exact absurd hh (splitOnChar_ne_nil sep rest)
      · rcases List.mem_cons.mp hc with rfl | hc2
        · right
          refine ⟨c :: hd, ?_, by simp⟩
          rw [splitOnChar, if_neg ha, hh]
          simp
        · rcases ih c hc2 with h | ⟨p, hp, hcp⟩
          · left; exact h
          · right
            rw [hh] at hp
            rcases List.mem_cons.mp hp with rfl | hp2
            · exact ⟨a :: p, by rw [splitOnChar, if_neg ha, hh]; simp, by simp [hcp]⟩
            · exact ⟨p, by rw [splitOnChar, if_neg ha, hh]; simp [hp2], hcp⟩

/-- A token accepted by `parseVolume` contains no upper-case ASCII letter:
all unit keywords of the duration grammar are matched in lower case only. -/
theorem parseVolumeL_noUpper {s : List Char} {v : Volume}
    (h : parseVolumeL s = Except.ok v) : ∀ c ∈ s, isUpperChar c = false := by
  intro c hc
  rcases mem_jsTrim_or_space s c hc with hm | hs
  · unfold parseVolumeL at h
    dsimp only [] at h
    split at h
    case _ n heq => exact matchAllDigits_noUpper heq c hm
    case _ =>
      split at h
      case _ n heq => exact matchReps_noUpper heq c hm
      case _ =>
        split at h
        case _ n heq => exact matchCombined_noUpper heq c hm
        case _ =>
          split_ifs at h with hcomma
          · split at h
            case _ e heq => cases h
            case _ total heq =>
              rcases mem_splitOnChar ',' (jsTrim s) c hm with rfl | ⟨p, hp, hcp⟩
              · decide
              · rcases mem_jsTrim_or_space p c hcp with hm2 | hs2
                · rcases sumFragments_ok heq (jsTrim p)
                    (List.mem_map_of_mem jsTrim hp) with ⟨v2, hv2⟩
                  exact parseVolumeFrag_noUpper hv2 c hm2
                · exact upper_not_space c hs2
          · split at h
            case _ n heq => exact matchSimple_noUpper heq c hm
            case _ n heq => exact matchSimple_noUpper heq c hm
            case _ => cases h
  · exact upper_not_space c hs

/-- C10: duration unit keywords are matched case-sensitively in lower case
only — any token containing an upper-case ASCII letter (such as `30S`,
`2 Min` or `5 REPS`) makes `parseVolume` fail — unlike the line-level `rest`
keyword, which `parseLine` matches case-insensitively (`REST | 10s` parses
as a rest line). -/
theorem unit_keywords_lowercase_only (s : String)
    (hupper : ∃ c ∈ s.data, isUpperChar c = true) :
    (∃ e, parseVolume s = Except.error e) ∧
    parseLine ("REST | 10s") 5 = ParsedLine.rest ⟨10, VolumeUnit.seconds⟩ none := by
  refine ⟨?_, rfl⟩
  rcases hupper with ⟨c, hc, hcu⟩
  cases h : parseVolume s with
  | error e => exact ⟨e, rfl⟩
  | ok v =>
    have hlow := parseVolumeL_noUpper (s := s.data) (v := v) h c hc
    rw [hcu] at hlow
    cases hlow

/-- Witness for `unit_keywords_lowercase_only` at the concrete upper-case
token `30S`. -/
theorem unit_keywords_lowercase_only_witness :
    (∃ e, parseVolume ("30S") = Except.error e) ∧
    parseLine ("REST | 10s") 5 = ParsedLine.rest ⟨10, VolumeUnit.seconds⟩ none :=
  unit_keywords_lowercase_only ("30S") ⟨'S', by decide, by decide⟩
